import Mathlib

/-
Verification of the pyspread core model (src/src/model/model.py) against its
natural-language specification.

The source file is Python 2.  This development is a shallow embedding of the
relevant classes:

  * `KeyValueStore` / `DictGrid` (layer 0/1): a Python `dict` is embedded as an
    association list with overwrite-on-assignment semantics (`dset`), so that
    insertion order — which Python dicts of that era expose through iteration
    only up to an unspecified order, but which all our claims treat purely
    through lookup — is kept explicit.
  * `CellAttributes` (attribute overlay), `UnRedo` (undo/redo log),
    `DataArray` (layer 2) and `CodeArray` (layer 3).

Python exceptions are embedded as values of `PyError`; a call that raises is a
`.error`.  Machine-level behaviours of CPython 2 that decide several claims are
modelled exactly where they matter and are documented at the definition that
embeds them:

  * `DictGrid.__getitem__` (model.py:125) executes
    `return KeyValueStore.__getitem__(key)` — the receiver `self` is missing,
    so the unbound `dict.__getitem__` descriptor is applied to the tuple `key`
    and raises `TypeError` for every key that passes the bounds check.
  * `DataArray.__setitem__` (model.py:372) executes
    `itertools.product(single_keys_per_dim)` — without unpacking, `product`
    of a single list yields the 1-tuples `(x,)` of its elements, not the
    cartesian product across axes.
  * `DataArray._is_slice_like` tests `hasattr(obj, "split")` (true of strings)
    and `DataArray._is_string_like` tests `hasattr(obj, "indices")` (true of
    slice objects): the two bodies are swapped relative to their docstrings.
  * `DataArray.insert` / `DataArray.delete` run `for key in self:` — `DataArray`
    defines no `__iter__`, so Python 2 falls back to the sequence protocol and
    calls `self[0]`, whose body `for key_ele in key:` iterates the integer `0`
    and raises `TypeError` before any cell is moved.
  * `DataArray._set_shape` pops keys of `self.dict_grid` inside
    `for key in self.dict_grid:` — a CPython 2 dict iterator raises
    `RuntimeError` on the step after the dict changed size, so the first
    evicted key is popped and the next iteration step raises; the new shape is
    never committed.
-/

/-- Python exceptions raised by the code paths modelled here.
`externalUnmodeled` is not an exception: it marks a call into
`lib.irange.slice_range`, a module of this repository that is not part of the
sources under verification, whose behaviour is therefore not modelled (no
theorem below depends on it). -/
inductive PyError where
  | indexError
  | typeError
  | valueError
  | runtimeError
  | notImplementedError
  | attributeError
  | externalUnmodeled
deriving DecidableEq, Repr

/-- Python dict assignment `d[k] = v` on an association list that carries at
most one binding per key: an existing binding is overwritten in place
(Python dicts keep the original insertion position), a new one is appended. -/
def dset {κ V : Type} [BEq κ] (d : List (κ × V)) (k : κ) (v : V) : List (κ × V) :=
  if d.any (fun p => p.1 == k) then
    d.map (fun p => if p.1 == k then (k, v) else p)
  else
    d ++ [(k, v)]

/-- Python dict lookup `d[k]` / `d.get(k)` as an `Option`. -/
def dget {κ V : Type} [BEq κ] (d : List (κ × V)) (k : κ) : Option V :=
  (d.find? (fun p => p.1 == k)).map (fun p => p.2)

/-- Python `d.update(other)`: assign every binding of `other` into `d`, in
`other`'s order. -/
def dupdate {κ V : Type} [BEq κ] (d : List (κ × V)) : List (κ × V) → List (κ × V)
  | [] => d
  | (k, v) :: rest => dupdate (dset d k v) rest

/-- The contents of a `DictGrid`: cell key (a Python tuple of integers,
embedded as `List Int` because `DataArray.__setitem__` stores tuples of a
different arity than the grid dimensionality) to cell code string. -/
abbrev Store : Type := List (List Int × String)

def exceptDecEq {ε α : Type} [DecidableEq ε] [DecidableEq α] :
    (a b : Except ε α) → Decidable (a = b)
  | Except.error e1, Except.error e2 =>
    if h : e1 = e2 then Decidable.isTrue (by rw [h])
    else Decidable.isFalse (by intro hh; injection hh; contradiction)
  | Except.error _, Except.ok _ => Decidable.isFalse (by intro hh; injection hh)
  | Except.ok _, Except.error _ => Decidable.isFalse (by intro hh; injection hh)
  | Except.ok v1, Except.ok v2 =>
    if h : v1 = v2 then Decidable.isTrue (by rw [h])
    else Decidable.isFalse (by intro hh; injection hh; contradiction)

instance {ε α : Type} [DecidableEq ε] [DecidableEq α] : DecidableEq (Except ε α) :=
  exceptDecEq

/-- The bounds test of `DictGrid.__getitem__` (model.py:120-123): walking the
axes of the key in order, the element fails when
`shape[axis] <= key_ele or key_ele < -shape[axis]`; a key with more axes than
the shape fails as well because `shape[axis]` itself raises `IndexError` for
the surplus axis.  Returns `true` iff the loop raises `IndexError`. -/
def boundsErr : List Int → List Int → Bool
  | _, [] => false
  | [], _ :: _ => true
  | s :: ss, k :: ks => (s ≤ k || k < -s) || boundsErr ss ks

/-- `DictGrid.__getitem__` (model.py:116-125).  After the bounds check the
method executes `return KeyValueStore.__getitem__(key)`: the receiver is
missing, so the unbound `dict.__getitem__` descriptor is applied to the tuple
`key` and raises `TypeError: descriptor '__getitem__' requires a 'dict' object`
for every in-bounds key.  The stored mapping and `KeyValueStore.__missing__`
(which would return `None`) are unreachable on this path, which is why the
`store` argument is never consulted. -/
def DictGrid.getitem (shape : List Int) (store : Store) (key : List Int) :
    Except PyError (Option String) :=
  if boundsErr shape key then Except.error PyError.indexError
  else Except.error PyError.typeError

/-- One element of a key tuple passed to `DataArray.__getitem__` /
`DataArray.__setitem__`: an integer, a Python `slice` object (only its type tag
matters to every reachable code path: both accessors raise before consulting
its fields), or a string. -/
inductive KeyElem where
  | int (i : Int)
  | slice
  | str (s : String)
deriving DecidableEq, Repr

/-- Result of `DataArray.__getitem__`: a generator object (returned by
`self.cell_array_generator(key)` without executing the generator body), a
value fetched from the dict grid, or a raised exception. -/
inductive GetRes where
  | gen
  | val (v : Option String)
  | err (e : PyError)
deriving DecidableEq, Repr

/-- The dispatch loop of `DataArray.__getitem__` (model.py:334-343): for each
key element in order, `_is_slice_like` (which tests `hasattr(obj, "split")`,
true of strings) sends the whole key to `cell_array_generator`, and otherwise
`_is_string_like` (which tests `hasattr(obj, "indices")`, true of slice
objects) raises `NotImplementedError`.  `some true` = a string decided first,
`some false` = a slice decided first, `none` = all elements are integers. -/
def keyDispatch : List KeyElem → Option Bool
  | [] => none
  | KeyElem.str _ :: _ => some true
  | KeyElem.slice :: _ => some false
  | KeyElem.int _ :: rest => keyDispatch rest

/-- Extracts the integers of an all-integer key (total on any key; only applied
where `keyDispatch` returned `none`, in which case it is the whole key). -/
def keyInts : List KeyElem → List Int
  | [] => []
  | KeyElem.int i :: rest => i :: keyInts rest
  | KeyElem.slice :: rest => keyInts rest
  | KeyElem.str _ :: rest => keyInts rest

/-- `DataArray.__getitem__` (model.py:318-347): first string-ish element wins a
generator, first slice raises `NotImplementedError`, an all-integer key is read
through `self.dict_grid[key]`. -/
def DataArray.getitem (shape : List Int) (store : Store) (key : List KeyElem) : GetRes :=
  match keyDispatch key with
  | some true => GetRes.gen
  | some false => GetRes.err PyError.notImplementedError
  | none =>
    match DictGrid.getitem shape store (keyInts key) with
    | Except.error e => GetRes.err e
    | Except.ok v => GetRes.val v

/-- The per-axis loop of `DataArray.__setitem__` (model.py:355-370): an
integer element is appended to `single_keys_per_dim`; an element with a
`split` attribute (a string) is passed to the external `slice_range`
(`lib.irange`, not among the sources; its behaviour is not modelled — marked
`externalUnmodeled` and never reasoned about); an element with an `indices`
attribute (a slice object) raises `NotImplementedError`. -/
def setitemCollect : List KeyElem → Except PyError (List Int)
  | [] => Except.ok []
  | KeyElem.str _ :: _ => Except.error PyError.externalUnmodeled
  | KeyElem.slice :: _ => Except.error PyError.notImplementedError
  | KeyElem.int i :: rest => (setitemCollect rest).map (fun l => i :: l)

/-- `DataArray.__setitem__` (model.py:350-375).  After the per-axis loop the
method executes `single_keys = itertools.product(single_keys_per_dim)`:
`product` applied to the single list yields the 1-tuples `(x,)` of its
elements, so each integer of the key is written as a separate 1-tuple key into
the dict grid (plain `dict` assignment — `DictGrid` overrides only
`__getitem__`, hence no bounds check anywhere on the write path, and `shape`
is not consulted at all). -/
def DataArray.setitem (store : Store) (key : List KeyElem) (value : String) :
    Except PyError Store :=
  match setitemCollect key with
  | Except.error e => Except.error e
  | Except.ok skpd =>
    Except.ok ((skpd.map (fun i => [i])).foldl (fun st k => dset st k value) store)

/-- `DataArray.insert` (model.py:413-439).  The validations run in source
order: `0 <= axis <= len(self.shape)` else `ValueError`; then
`self.shape[axis]` itself raises `IndexError` when `axis == len(shape)`;
then the insertion point check raises `IndexError`.  The body then runs
`for key in self:` — `DataArray` has no `__iter__`, so the Python 2 sequence
protocol calls `self[0]`, whose body `for key_ele in key:` iterates the
integer `0` and raises `TypeError`, before any cell is popped or moved.
`no_to_insert` is only ever used inside that unreachable loop body. -/
def DataArray.insert (shape : List Int) (store : Store)
    (insertion_point no_to_insert axis : Int) : Except PyError Store :=
  if ¬ (0 ≤ axis ∧ axis ≤ (shape.length : Int)) then Except.error PyError.valueError
  else
    match shape.get? axis.toNat with
    | none => Except.error PyError.indexError
    | some bound =>
      if insertion_point > bound ∨ insertion_point ≤ -bound then
        Except.error PyError.indexError
      else Except.error PyError.typeError

/-- `DataArray.delete` (model.py:441-473).  Validations in source order:
`no_to_delete < 0` raises `ValueError`; the axis and deletion point checks are
those of `insert`; then `for key in self:` raises `TypeError` exactly as in
`insert`, before any cell is touched. -/
def DataArray.delete (shape : List Int) (store : Store)
    (deletion_point no_to_delete axis : Int) : Except PyError Store :=
  if no_to_delete < 0 then Except.error PyError.valueError
  else if ¬ (0 ≤ axis ∧ axis ≤ (shape.length : Int)) then Except.error PyError.valueError
  else
    match shape.get? axis.toNat with
    | none => Except.error PyError.indexError
    | some bound =>
      if deletion_point > bound ∨ deletion_point ≤ -bound then
        Except.error PyError.indexError
      else Except.error PyError.typeError

/-- `DataArray._set_shape` (model.py:274-293).  When some new axis is smaller
than the old one, the eviction loop `for key in self.dict_grid:` pops each key
beyond the new borders — but a CPython 2 dict iterator raises
`RuntimeError: dictionary changed size during iteration` on the step after a
pop (including the terminating step), so the first out-of-bounds key (in dict
order, which the association list keeps) is popped and the loop then raises;
`self.dict_grid.shape = shape` is never reached.  Only a shrink with no stored
key beyond the new borders, or a pure grow, completes.  Returns
(raised exception?, resulting shape, resulting store). -/
def DataArray.set_shape (old_shape new_shape : List Int) (store : Store) :
    Option PyError × List Int × Store :=
  if (new_shape.zip old_shape).any (fun p => p.1 < p.2) then
    match store.find? (fun kv => (kv.1.zip new_shape).any (fun p => p.2 ≤ p.1)) with
    | some kv =>
      (some PyError.runtimeError, old_shape,
        store.eraseP (fun x => x == kv))
    | none => (none, new_shape, store)
  else (none, new_shape, store)

/-- The shape invariant of spec §3: every stored coordinate lies within the
current shape — the coordinate has at most one axis per shape axis and each
axis index `c[i]` satisfies `0 ≤ c[i] < shape[i]`. -/
def keyInShape (shape key : List Int) : Bool :=
  decide (key.length ≤ shape.length) &&
    (key.zip shape).all (fun p => decide (0 ≤ p.1) && decide (p.1 < p.2))

/-- A cell coordinate as used by `CellAttributes.__getitem__`: the assert at
model.py:77 only rules out slice elements, and the claims about the overlay
use plain integer coordinates. -/
abbrev Coord : Type := List Int

/-- A `Selection` is an external capability (spec §3): the only operation the
core performs on it is the containment test `key in selection`
(model.py:82). -/
abbrev Selection : Type := Coord → Bool

/-- One overlay entry (model.py:63-67): a selection and the dict of attributes
that entry alters. -/
abbrev AttrEntry (V : Type) : Type := Selection × List (String × V)

/-- `CellAttributes.__getitem__` (model.py:74-85): starting from the empty
dict, walk the entry list in order and `result_dict.update(attr_dict)` for
every entry whose selection contains the key. -/
def CellAttributes.getitem {V : Type} (cas : List (AttrEntry V)) (key : Coord) :
    List (String × V) :=
  cas.foldl (fun acc e => if e.1 key then dupdate acc e.2 else acc) []

/-- One entry of the undo list (model.py:136-141): undo function, undo
parameters, redo function, redo parameters.  Functions and parameter lists are
opaque capabilities; invoking one is recorded as an event. -/
structure UrEntry (α β : Type) where
  ufn : α
  uargs : β
  rfn : α
  rargs : β
deriving DecidableEq, Repr

/-- An element of `undolist` / `redolist`: either the separator string `"MARK"`
or a 4-tuple entry. -/
inductive UrItem (α β : Type) where
  | mark
  | step (e : UrEntry α β)
deriving DecidableEq, Repr

def UrItem.isMark {α β : Type} : UrItem α β → Bool
  | UrItem.mark => true
  | UrItem.step _ => false

/-- The mutable state of an `UnRedo` object.  A Python list grows at its end;
here the head of the Lean list is the Python list's last element, so
`list[-1]` is `head?`, `append` is cons, and `pop()` removes the head. -/
structure UnRedo (α β : Type) where
  undolist : List (UrItem α β)
  redolist : List (UrItem α β)
  active : Bool
deriving DecidableEq, Repr

/-- `UnRedo.__init__` / `UnRedo.reset` (model.py:159-168, 216-219): `reset`
re-runs `__init__`, emptying both lists and clearing `active`. -/
def UnRedo.reset {α β : Type} (_ : UnRedo α β) : UnRedo α β :=
  { undolist := [], redolist := [], active := false }

/-- `UnRedo.mark` (model.py:170-174): push `"MARK"` onto the undo list, but
only if the list is non-empty and not already topped by a mark.  (Despite its
docstring, the method does not touch the redo list.) -/
def UnRedo.mark {α β : Type} (s : UnRedo α β) : UnRedo α β :=
  match s.undolist with
  | [] => s
  | UrItem.mark :: _ => s
  | UrItem.step _ :: _ => { s with undolist := UrItem.mark :: s.undolist }

/-- Observable events of an undo/redo replay, in program order.  The stack
move (`redolist.append(step)` resp. `undolist.append(step)`) happens in the
source before the action is invoked, and the event lists below keep that
order. -/
inductive UrEvent (α β : Type) where
  | movedToRedo (e : UrEntry α β)
  | invokedUndo (fn : α) (args : β)
  | movedToUndo (e : UrEntry α β)
  | invokedRedo (fn : α) (args : β)
deriving DecidableEq, Repr

/-- The pop loop of `UnRedo.undo` (model.py:187-192): pop the undo list until
a mark is popped or the list empties; each popped step is appended to the redo
list and then its undo action is invoked. -/
def undoPopLoop {α β : Type} :
    List (UrItem α β) → List (UrItem α β) → List (UrEvent α β) →
      List (UrItem α β) × List (UrItem α β) × List (UrEvent α β)
  | [], redol, evs => ([], redol, evs)
  | UrItem.mark :: rest, redol, evs => (rest, redol, evs)
  | UrItem.step e :: rest, redol, evs =>
    undoPopLoop rest (UrItem.step e :: redol)
      (evs ++ [UrEvent.movedToRedo e, UrEvent.invokedUndo e.ufn e.uargs])

/-- `UnRedo.undo` (model.py:176-194): set `active`; drop trailing marks from
the undo list; push a mark onto the redo list if it is non-empty and not
already topped by one; run the pop loop; clear `active`.  Returns the new
state and the events of the replay. -/
def UnRedo.undo {α β : Type} (s : UnRedo α β) : UnRedo α β × List (UrEvent α β) :=
  let ul := s.undolist.dropWhile UrItem.isMark
  let rl :=
    match s.redolist with
    | [] => s.redolist
    | UrItem.mark :: _ => s.redolist
    | UrItem.step _ :: _ => UrItem.mark :: s.redolist
  match undoPopLoop ul rl [] with
  | (ul2, rl2, evs) => ({ undolist := ul2, redolist := rl2, active := false }, evs)

/-- The pop loop of `UnRedo.redo` (model.py:207-212), symmetric to
`undoPopLoop`: popped steps go to the undo list and their redo action is
invoked. -/
def redoPopLoop {α β : Type} :
    List (UrItem α β) → List (UrItem α β) → List (UrEvent α β) →
      List (UrItem α β) × List (UrItem α β) × List (UrEvent α β)
  | [], undol, evs => ([], undol, evs)
  | UrItem.mark :: rest, undol, evs => (rest, undol, evs)
  | UrItem.step e :: rest, undol, evs =>
    redoPopLoop rest (UrItem.step e :: undol)
      (evs ++ [UrEvent.movedToUndo e, UrEvent.invokedRedo e.rfn e.rargs])

/-- `UnRedo.redo` (model.py:196-214): set `active`; drop trailing marks from
the redo list; push a mark onto the undo list whenever it is non-empty (unlike
`undo`, without checking whether it is already topped by one); run the pop
loop; clear `active`. -/
def UnRedo.redo {α β : Type} (s : UnRedo α β) : UnRedo α β × List (UrEvent α β) :=
  let rl := s.redolist.dropWhile UrItem.isMark
  let ul :=
    match s.undolist with
    | [] => s.undolist
    | _ :: _ => UrItem.mark :: s.undolist
  match redoPopLoop rl ul [] with
  | (rl2, ul2, evs) => ({ undolist := ul2, redolist := rl2, active := false }, evs)

/-- `UnRedo.append` (model.py:221-242), with `MAX_UNREDO` (imported from the
`config` module, which is not among the sources; its value is left as the
parameter `m`).  In source order: if either list is longer than `m`, `reset()`
— which also clears `active`; the attribute-type assertions always hold for
well-formed operation pairs; then, only when `active` is false (possibly just
cleared by the reset), push `undo_operation + operation` — the concatenated
4-tuple — onto the undo list. -/
def UnRedo.append {α β : Type} (m : Nat) (s : UnRedo α β)
    (undo_operation : α × β) (operation : α × β) : UnRedo α β :=
  let s1 := if s.undolist.length > m || s.redolist.length > m then s.reset else s
  if s1.active then s1
  else
    { s1 with
      undolist :=
        UrItem.step
          { ufn := undo_operation.1, uargs := undo_operation.2,
            rfn := operation.1, rargs := operation.2 } :: s1.undolist }

/-- The Python 2 whitespace set of `str.split()` / `str.strip()`:
space, tab, newline, vertical tab, form feed, carriage return. -/
def isPySpace (c : Char) : Bool :=
  c == ' ' || c == '\t' || c == '\n' || c == '\x0b' || c == '\x0c' || c == '\r'

/-- Python `s.split(sep)` for a one-character separator, on the character
list of `s`: split at every occurrence of the separator, keeping empty
parts.  The result is never empty (`""` splits to `[""]`). -/
def splitOnP (p : Char → Bool) : List Char → List (List Char)
  | [] => [[]]
  | c :: cs =>
    match splitOnP p cs with
    | [] => [[]]
    | part :: parts => if p c then [] :: part :: parts else (c :: part) :: parts

/-- Python `sep.join(parts)` for a one-character separator. -/
def joinSep (sep : Char) : List (List Char) → List Char
  | [] => []
  | [part] => part
  | part :: parts => part ++ sep :: joinSep sep parts

/-- Python `s.split()` with no argument: split on runs of whitespace,
dropping empty parts — equivalently, split at every single whitespace
character and drop the empty parts. -/
def pyWsSplit (l : List Char) : List (List Char) :=
  (splitOnP isPySpace l).filter (fun part => !part.isEmpty)

/-- Python `s.strip()`: drop leading and trailing whitespace. -/
def pyStrip (l : List Char) : List Char :=
  ((l.dropWhile isPySpace).reverse.dropWhile isPySpace).reverse

/-- `pat` starts the list `s` (helper for the substring test). -/
def listStarts : List Char → List Char → Bool
  | [], _ => true
  | _ :: _, [] => false
  | p :: ps, c :: cs => p == c && listStarts ps cs

/-- Python `pat in s` substring containment. -/
def pyIn (pat : List Char) : List Char → Bool
  | [] => pat.isEmpty
  | c :: cs => listStarts pat (c :: cs) || pyIn pat cs

/-- `CodeArray.operators` (model.py:488-491): the fixed operator set used by
the assignment check. -/
def CodeArray.operators : List (List Char) :=
  (["+", "-", "*", "**", "/", "//",
    "%", "<<", ">>", "&", "|", "^", "~",
    "<", ">", "<=", ">=", "==", "!=", "<>"].map String.data)

/-- The `has_assignment` condition of `CodeArray._eval_cell`
(model.py:516-529), as a function of the cell's source text:
`split_exp = text.split("=")`, then
`len(split_exp) > 1 and len(split_exp[0].split()) == 1 and split_exp[1] != ""
and (not max(op in split_exp[0] for op in operators)) and
split_exp[0].count("(") == split_exp[0].count(")")`. -/
def CodeArray.has_assignment (txt : List Char) : Bool :=
  let split_exp := splitOnP (fun c => c == '=') txt
  decide (1 < split_exp.length) &&
    decide ((pyWsSplit (split_exp.headD [])).length = 1) &&
    !(split_exp.getD 1 []).isEmpty &&
    !(CodeArray.operators.any (fun op => pyIn op (split_exp.headD []))) &&
    ((split_exp.headD []).count '(' == (split_exp.headD []).count ')')

/-- The variable/expression selection of `CodeArray._eval_cell`
(model.py:531-538) as a function of the source text: on a detected assignment
the global variable is `split_exp[0].strip()` and the expression is
`"=".join(split_exp[1:])`; otherwise there is no global variable and the
expression is the cell's text (the source re-reads `self.dict_grid[key]`,
which holds the same text within the call). -/
def CodeArray.eval_cell_split (txt : List Char) :
    Option (List Char) × List Char :=
  let split_exp := splitOnP (fun c => c == '=') txt
  if CodeArray.has_assignment txt then
    (some (pyStrip (split_exp.headD [])), joinSep '=' split_exp.tail)
  else (none, txt)

/-- `CodeArray._eval_cell` (model.py:506-548), generic over the external
expression evaluator `ev` (spec §6 treats `eval` as an opaque fallible
capability).  In source order: the evaluation environment reads `key[0]`,
`key[1]`, `key[2]`, so a key of fewer than three axes raises `IndexError`;
then `self.dict_grid[key].split("=")` fetches the source text through
`DictGrid.__getitem__` and propagates whatever that raises (it is not inside
the `try` block); a `None` fetched for a missing cell would raise
`AttributeError` at `.split` (also outside the `try`); on a fetched string the
assignment split runs, the evaluator is invoked on the expression, and only an
evaluator failure is caught, becoming the result value (`Sum.inr`).  The
`globals()` binding of a detected variable to the result is a process-global
side effect that no claim here depends on; it is not part of the returned
value. -/
def CodeArray.eval_cell {V E : Type} (ev : List Char → Except E V)
    (shape : List Int) (store : Store) (key : List Int) :
    Except PyError (Sum V E) :=
  if key.length < 3 then Except.error PyError.indexError
  else
    match DictGrid.getitem shape store key with
    | Except.error e => Except.error e
    | Except.ok none => Except.error PyError.attributeError
    | Except.ok (some txt) =>
      let expr := (CodeArray.eval_cell_split txt.data).2
      match ev expr with
      | Except.ok v => Except.ok (Sum.inl v)
      | Except.error err => Except.ok (Sum.inr err)

/-- `CodeArray.__getitem__` (model.py:495-504): `wx.Yield()` — the cooperative
UI yield, which has no effect on the result (spec §5) — and then
`self._eval_cell(key)`. -/
def CodeArray.getitem {V E : Type} (ev : List Char → Except E V)
    (shape : List Int) (store : Store) (key : List Int) :
    Except PyError (Sum V E) :=
  CodeArray.eval_cell ev shape store key

/-- "Everything after the first `=`" of a text: the tail of the text beyond
the first occurrence of `'='` (empty when there is no `'='`). -/
def afterFirstEq (l : List Char) : List Char :=
  (l.dropWhile (fun c => !(c == '='))).tail

/-- The spec-side out-of-bounds condition on a bounded read, as amended for
claim C3: some axis `i` of the key either has no counterpart in the shape or
fails the Python-style check `-shape[i] <= key[i] < shape[i]`. -/
def PyOOB (shape key : List Int) : Prop :=
  ∃ i, i < key.length ∧
    (shape.length ≤ i ∨ shape.getD i 0 ≤ key.getD i 0 ∨ key.getD i 0 < -(shape.getD i 0))

/-- Modelled from the claim C9 wording: assignment detection as the claim
states it — splitting on `=` yields at least two parts, the left part is one
whitespace-delimited token, the left part contains none of the operator set
and has balanced parenthesis counts, and the right part obtained by rejoining
all remaining parts with `=` (that is, everything after the first `=`) is
non-empty. -/
def SpecC9detect (txt : List Char) : Prop :=
  '=' ∈ txt ∧
    (pyWsSplit (txt.takeWhile (fun c => !(c == '=')))).length = 1 ∧
    afterFirstEq txt ≠ [] ∧
    (∀ op ∈ CodeArray.operators,
      ¬ ∃ l1 l2, txt.takeWhile (fun c => !(c == '=')) = l1 ++ op ++ l2) ∧
    (txt.takeWhile (fun c => !(c == '='))).count '(' =
      (txt.takeWhile (fun c => !(c == '='))).count ')'

/-- The amended detection condition for claim C9: as `SpecC9detect`, except
that the non-emptiness is required of the text strictly between the first `=`
and the following `=` (or the end of the text) — Python's `split_exp[1]` —
rather than of everything after the first `=`. -/
def AmendedC9detect (txt : List Char) : Prop :=
  '=' ∈ txt ∧
    (pyWsSplit (txt.takeWhile (fun c => !(c == '=')))).length = 1 ∧
    (afterFirstEq txt).takeWhile (fun c => !(c == '=')) ≠ [] ∧
    (∀ op ∈ CodeArray.operators,
      ¬ ∃ l1 l2, txt.takeWhile (fun c => !(c == '=')) = l1 ++ op ++ l2) ∧
    (txt.takeWhile (fun c => !(c == '='))).count '(' =
      (txt.takeWhile (fun c => !(c == '='))).count ')'

theorem splitOnP_ne_nil (p : Char → Bool) (l : List Char) : splitOnP p l ≠ [] := by
  cases l with
  | nil => simp [splitOnP]
  | cons c cs =>
    simp only [splitOnP]
    cases h : splitOnP p cs with
    | nil => simp
    | cons part parts => by_cases hp : p c <;> simp [hp]

theorem splitOnP_headD (p : Char → Bool) (l : List Char) :
    (splitOnP p l).headD [] = l.takeWhile (fun c => !p c) := by
  induction l with
  | nil => simp [splitOnP]
  | cons c cs ih =>
    simp only [splitOnP]
    cases h : splitOnP p cs with
    | nil => exact absurd h (splitOnP_ne_nil p cs)
    | cons part parts =>
      rw [h] at ih
      by_cases hp : p c
      · simp [hp, List.takeWhile_cons]
      · simp only [List.headD_cons] at ih
        simp [hp, List.takeWhile_cons, ih]

theorem splitOnP_cons_eq (p : Char → Bool) (c : Char) (cs part : List Char)
    (parts : List (List Char)) (h : splitOnP p cs = part :: parts) :
    splitOnP p (c :: cs) =
      if p c then [] :: part :: parts else (c :: part) :: parts := by
  simp only [splitOnP, h]

theorem joinSep_splitOnP (sep : Char) (l : List Char) :
    joinSep sep (splitOnP (fun c => c == sep) l) = l := by
  induction l with
  | nil => simp [splitOnP, joinSep]
  | cons c cs ih =>
    cases h : splitOnP (fun c => c == sep) cs with
    | nil => exact absurd h (splitOnP_ne_nil _ cs)
    | cons part parts =>
      rw [h] at ih
      rw [splitOnP_cons_eq _ c cs part parts h]
      by_cases hc : c = sep
      · subst hc
        simp only [beq_self_eq_true, if_true]
        cases parts with
        | nil => simpa [joinSep] using ih
        | cons q qs => simpa [joinSep] using ih
      · have hb : (c == sep) = false := by simp [hc]
        rw [hb]
        simp only [Bool.false_eq_true, if_false]
        cases parts with
        | nil => simpa [joinSep] using congrArg (fun x => c :: x) ih
        | cons q qs =>
          simp only [joinSep] at ih ⊢
          rw [← ih]
          simp

theorem one_lt_splitOnP_length (p : Char → Bool) (l : List Char) :
    1 < (splitOnP p l).length ↔ ∃ c ∈ l, p c = true := by
  induction l with
  | nil => simp [splitOnP]
  | cons c cs ih =>
    cases h : splitOnP p cs with
    | nil => exact absurd h (splitOnP_ne_nil p cs)
    | cons part parts =>
      rw [h] at ih
      rw [splitOnP_cons_eq p c cs part parts h]
      by_cases hp : p c
      · simp [hp]
      · simp only [hp, Bool.false_eq_true, if_false]
        simp only [List.length_cons] at ih ⊢
        rw [ih]
        constructor
        · intro hx
          obtain ⟨x, hx1, hx2⟩ := hx
          exact ⟨x, List.mem_cons_of_mem _ hx1, hx2⟩
        · intro hx
          obtain ⟨x, hx1, hx2⟩ := hx
          rcases List.mem_cons.mp hx1 with rfl | hx3
          · exact absurd hx2 hp
          · exact ⟨x, hx3, hx2⟩

theorem splitOnP_decomp (p : Char → Bool) (l : List Char)
    (h : ∃ c ∈ l, p c = true) :
    splitOnP p l =
      l.takeWhile (fun c => !p c) ::
        splitOnP p ((l.dropWhile (fun c => !p c)).tail) := by
  induction l with
  | nil => simp at h
  | cons c cs ih =>
    cases hs : splitOnP p cs with
    | nil => exact absurd hs (splitOnP_ne_nil p cs)
    | cons part parts =>
      rw [splitOnP_cons_eq p c cs part parts hs]
      by_cases hp : p c
      · simp [hp, List.takeWhile_cons, List.dropWhile_cons, hs]
      · have hcs : ∃ x ∈ cs, p x = true := by
          obtain ⟨x, hx1, hx2⟩ := h
          rcases List.mem_cons.mp hx1 with rfl | hx3
          · exact absurd hx2 hp
          · exact ⟨x, hx3, hx2⟩
        have ihr := ih hcs
        rw [hs] at ihr
        simp only [hp, Bool.false_eq_true, if_false, List.takeWhile_cons,
          List.dropWhile_cons]
        simp only [hp, Bool.not_false, if_true, Bool.false_eq_true, if_false]
        rw [List.cons.injEq] at ihr
        rw [ihr.1, ihr.2]

theorem all_of_wsFilter_empty (p : Char → Bool) (l : List Char)
    (h : (splitOnP p l).filter (fun part => !part.isEmpty) = []) :
    l.all p = true := by
  induction l with
  | nil => simp
  | cons c cs ih =>
    cases hs : splitOnP p cs with
    | nil => exact absurd hs (splitOnP_ne_nil p cs)
    | cons part parts =>
      rw [splitOnP_cons_eq p c cs part parts hs] at h
      by_cases hp : p c
      · rw [if_pos hp] at h
        rw [List.filter_cons] at h
        simp only [List.isEmpty_nil, Bool.not_true, Bool.false_eq_true,
          if_false] at h
        have := ih (by rw [hs]; exact h)
        simp [hp, this]
      · simp only [hp, Bool.false_eq_true, if_false] at h
        simp [List.filter_cons] at h

theorem dropWhile_head_false (q : Char → Bool) (l cs2 : List Char) (c0 : Char)
    (h : l.dropWhile q = c0 :: cs2) : q c0 = false := by
  induction l with
  | nil => simp [List.dropWhile] at h
  | cons c cs ih =>
    rw [List.dropWhile_cons] at h
    by_cases hq : q c
    · rw [if_pos hq] at h
      exact ih h
    · rw [if_neg hq] at h
      rw [List.cons.injEq] at h
      rw [← h.1]
      simpa using hq

theorem dropWhile_append_all (p : Char → Bool) (a b : List Char)
    (h : a.all p = true) : (a ++ b).dropWhile p = b.dropWhile p := by
  induction a with
  | nil => simp
  | cons x xs ih =>
    simp only [List.all_cons, Bool.and_eq_true] at h
    simp only [List.cons_append, List.dropWhile_cons, h.1, if_true]
    exact ih h.2

theorem dropWhile_eq_self_of_all (p : Char → Bool) (l : List Char)
    (h : l.all (fun x => !p x) = true) : l.dropWhile p = l := by
  cases l with
  | nil => simp
  | cons x xs =>
    simp only [List.all_cons, Bool.and_eq_true] at h
    have hx : p x = false := by simpa using h.1
    simp [List.dropWhile_cons, hx]

theorem pyWsSplit_single (l t : List Char) (h : pyWsSplit l = [t]) : pyStrip l = t := by
  induction l with
  | nil => simp [pyWsSplit, splitOnP] at h
  | cons c cs ih =>
    cases hs : splitOnP isPySpace cs with
    | nil => exact absurd hs (splitOnP_ne_nil _ cs)
    | cons part parts =>
      unfold pyWsSplit at h
      rw [splitOnP_cons_eq isPySpace c cs part parts hs] at h
      by_cases hc : isPySpace c
      · rw [if_pos hc] at h
        rw [List.filter_cons] at h
        simp only [List.isEmpty_nil, Bool.not_true, Bool.false_eq_true,
          if_false] at h
        have h2 : pyWsSplit cs = [t] := by
          unfold pyWsSplit
          rw [hs]
          exact h
        have ihr := ih h2
        unfold pyStrip at ihr ⊢
        rw [List.dropWhile_cons, if_pos hc]
        exact ihr
      · rw [if_neg hc] at h
        rw [List.filter_cons] at h
        simp only [List.isEmpty_cons, Bool.not_false, if_true] at h
        rw [List.cons.injEq] at h
        obtain ⟨ht, hrest⟩ := h
        have hpart : part = cs.takeWhile (fun d => !isPySpace d) := by
          have hh := splitOnP_headD isPySpace cs
          rw [hs] at hh
          simpa using hh
        have hcneg : (isPySpace c) = false := by simpa using hc
        cases hd : cs.dropWhile (fun d => !isPySpace d) with
        | nil =>
          have hcs : cs = part := by
            have := List.takeWhile_append_dropWhile (fun d => !isPySpace d) cs
            rw [hd, List.append_nil] at this
            rw [hpart, this]
          have hallcs : cs.all (fun x => !isPySpace x) = true := by
            rw [List.all_eq_true]
            intro x hx
            exact List.dropWhile_eq_nil_iff.mp hd x hx
          have hall : (c :: cs).all (fun x => !isPySpace x) = true := by
            simp only [List.all_cons, hallcs, Bool.and_true]
            simp [hcneg]
          unfold pyStrip
          rw [dropWhile_eq_self_of_all _ _ hall]
          rw [dropWhile_eq_self_of_all _ _ (by rw [List.all_reverse]; exact hall)]
          rw [List.reverse_reverse]
          rw [← ht, hcs]
        | cons c0 cs2 =>
          have hsp0 : isPySpace c0 = true := by
            have := dropWhile_head_false (fun d => !isPySpace d) cs cs2 c0 hd
            simpa using this
          have hcs : cs = part ++ c0 :: cs2 := by
            have := List.takeWhile_append_dropWhile (fun d => !isPySpace d) cs
            rw [hd, ← hpart] at this
            exact this.symm
          have hmem : ∃ x ∈ cs, isPySpace x = true := by
            refine ⟨c0, ?_, hsp0⟩
            rw [hcs]
            exact List.mem_append_right _ (List.mem_cons_self _ _)
          have hdec := splitOnP_decomp isPySpace cs hmem
          rw [hs, ← hpart, hd, List.tail_cons] at hdec
          have hparts : parts = splitOnP isPySpace cs2 := by
            injection hdec
          have hall2 : cs2.all isPySpace = true :=
            all_of_wsFilter_empty isPySpace cs2 (by rw [← hparts]; exact hrest)
          have hallcp : (c :: part).all (fun x => !isPySpace x) = true := by
            simp only [List.all_cons, hcneg, Bool.not_false, Bool.true_and]
            rw [hpart]
            exact List.all_takeWhile
          unfold pyStrip
          rw [List.dropWhile_cons, if_neg hc]
          rw [hcs]
          rw [show c :: (part ++ c0 :: cs2) = (c :: part) ++ (c0 :: cs2) from rfl]
          rw [List.reverse_append]
          rw [dropWhile_append_all isPySpace _ _
            (by rw [List.all_reverse]; simp [List.all_cons, hsp0, hall2])]
          rw [dropWhile_eq_self_of_all isPySpace _
            (by rw [List.all_reverse]; exact hallcp)]
          rw [List.reverse_reverse]
          exact ht

theorem listStarts_iff (pat : List Char) : ∀ s : List Char,
    listStarts pat s = true ↔ ∃ rest, s = pat ++ rest := by
  induction pat with
  | nil => intro s; simp [listStarts]
  | cons p ps ih =>
    intro s
    cases s with
    | nil => simp [listStarts]
    | cons c cs =>
      simp only [listStarts, Bool.and_eq_true, beq_iff_eq]
      rw [ih cs]
      constructor
      · rintro ⟨rfl, rest, rfl⟩
        exact ⟨rest, rfl⟩
      · rintro ⟨rest, h⟩
        rw [List.cons_append] at h
        injection h with h1 h2
        exact ⟨h1.symm, rest, h2⟩

theorem pyIn_iff (pat : List Char) : ∀ s : List Char,
    pyIn pat s = true ↔ ∃ l1 l2, s = l1 ++ pat ++ l2 := by
  intro s
  induction s with
  | nil =>
    simp only [pyIn, List.isEmpty_iff]
    constructor
    · rintro rfl
      exact ⟨[], [], rfl⟩
    · rintro ⟨l1, l2, h⟩
      rcases List.append_eq_nil.mp h.symm with ⟨h1, h2⟩
      exact (List.append_eq_nil.mp h1).2
  | cons c cs ih =>
    simp only [pyIn, Bool.or_eq_true]
    rw [listStarts_iff, ih]
    constructor
    · rintro (⟨rest, hr⟩ | ⟨l1, l2, rfl⟩)
      · exact ⟨[], rest, by simpa using hr⟩
      · exact ⟨c :: l1, l2, rfl⟩
    · rintro ⟨l1, l2, h⟩
      cases l1 with
      | nil =>
        left
        exact ⟨l2, by simpa using h⟩
      | cons x xs =>
        right
        rw [List.cons_append, List.cons_append] at h
        injection h with h1 h2
        exact ⟨xs, l2, h2⟩

theorem operators_sub_iff (s : List Char) :
    CodeArray.operators.any (fun op => pyIn op s) = false ↔
      ∀ op ∈ CodeArray.operators, ¬ ∃ l1 l2, s = l1 ++ op ++ l2 := by
  constructor
  · intro h op hop hex
    have h1 : pyIn op s = true := (pyIn_iff op s).mpr hex
    have h2 : CodeArray.operators.any (fun op => pyIn op s) = true :=
      List.any_eq_true.mpr ⟨op, hop, h1⟩
    rw [h] at h2
    exact Bool.false_ne_true h2
  · intro h
    cases hb : CodeArray.operators.any (fun op => pyIn op s) with
    | false => rfl
    | true =>
      obtain ⟨op, hop, hTrue⟩ := List.any_eq_true.mp hb
      exact absurd ((pyIn_iff op s).mp hTrue) (h op hop)

theorem PyOOB_cons (s k : Int) (ss ks : List Int) :
    PyOOB (s :: ss) (k :: ks) ↔ (s ≤ k ∨ k < -s) ∨ PyOOB ss ks := by
  unfold PyOOB
  constructor
  · rintro ⟨i, hi, hcond⟩
    cases i with
    | zero =>
      simp only [List.getD_cons_zero, List.length_cons] at hcond
      rcases hcond with h1 | h2
      · exact absurd h1 (by omega)
      · exact Or.inl h2
    | succ j =>
      simp only [List.getD_cons_succ, List.length_cons] at hcond
      refine Or.inr ⟨j, ?_, ?_⟩
      · simpa using Nat.lt_of_succ_lt_succ hi
      · simpa using hcond
  · rintro (h | ⟨j, hj, hcond⟩)
    · exact ⟨0, by simp, Or.inr (by simpa using h)⟩
    · refine ⟨j + 1, ?_, ?_⟩
      · simpa using Nat.succ_lt_succ hj
      · simp only [List.getD_cons_succ, List.length_cons]
        rcases hcond with h1 | h2
        · exact Or.inl (by omega)
        · exact Or.inr h2

theorem boundsErr_iff (key : List Int) : ∀ shape : List Int,
    boundsErr shape key = true ↔ PyOOB shape key := by
  induction key with
  | nil =>
    intro shape
    simp only [boundsErr]
    unfold PyOOB
    simp
  | cons k ks ih =>
    intro shape
    cases shape with
    | nil =>
      simp only [boundsErr]
      unfold PyOOB
      constructor
      · intro _
        exact ⟨0, by simp, Or.inl (by simp)⟩
      · intro _
        trivial
    | cons s ss =>
      simp only [boundsErr, Bool.or_eq_true, decide_eq_true_eq]
      rw [PyOOB_cons, ih ss]

theorem attr_foldl_filter {V : Type} (key : Coord) (cas : List (AttrEntry V)) :
    ∀ acc : List (String × V),
      cas.foldl (fun acc e => if e.1 key then dupdate acc e.2 else acc) acc =
        (cas.filter (fun e => e.1 key)).foldl (fun acc e => dupdate acc e.2) acc := by
  induction cas with
  | nil => intro acc; simp
  | cons e es ih =>
    intro acc
    cases he : e.1 key with
    | true => simp [List.filter_cons, he, ih]
    | false => simp [List.filter_cons, he, ih]

theorem find_map_dset {V : Type} (k : String) (v : V) : ∀ a : List (String × V),
    a.any (fun p => p.1 == k) = true →
      List.find? (fun p => p.1 == k)
          (a.map (fun p => if p.1 == k then (k, v) else p)) = some (k, v) := by
  intro a
  induction a with
  | nil => intro h; simp at h
  | cons p ps ih =>
    intro h
    simp only [List.map_cons]
    by_cases hp : (p.1 == k) = true
    · rw [if_pos hp]
      rw [List.find?_cons_of_pos _ (by simp)]
    · rw [if_neg hp]
      rw [@List.find?_cons_of_neg _ (fun q => q.1 == k) p _ hp]
      apply ih
      simp only [List.any_cons, Bool.or_eq_true] at h
      rcases h with h1 | h2
      · exact absurd h1 hp
      · exact h2

theorem find_append_single {V : Type} (k : String) (v : V) : ∀ a : List (String × V),
    a.any (fun p => p.1 == k) = false →
      List.find? (fun p => p.1 == k) (a ++ [(k, v)]) = some (k, v) := by
  intro a
  induction a with
  | nil =>
    intro _
    simp only [List.nil_append]
    rw [List.find?_cons_of_pos _ (by simp)]
  | cons p ps ih =>
    intro h
    simp only [List.any_cons, Bool.or_eq_false_iff] at h
    simp only [List.cons_append]
    rw [List.find?_cons_of_neg _ (by simp [h.1])]
    exact ih (by simp [h.2])

theorem dget_dset {V : Type} (a : List (String × V)) (k : String) (v : V) :
    dget (dset a k v) k = some v := by
  unfold dget dset
  by_cases h : a.any (fun p => p.1 == k) = true
  · rw [if_pos h, find_map_dset k v a h]
    rfl
  · rw [if_neg h, find_append_single k v a (by simp only [Bool.not_eq_true] at h; exact h)]
    rfl

theorem headD_split_eq (txt : List Char) :
    (splitOnP (fun c => c == '=') txt).headD [] =
      txt.takeWhile (fun c => !(c == '=')) := by
  simpa using splitOnP_headD (fun c => c == '=') txt

theorem one_lt_split_eq_iff (txt : List Char) :
    1 < (splitOnP (fun c => c == '=') txt).length ↔ '=' ∈ txt := by
  rw [one_lt_splitOnP_length]
  constructor
  · rintro ⟨c, hc, he⟩
    have : c = '=' := by simpa using he
    exact this ▸ hc
  · intro h
    exact ⟨'=', h, by simp⟩

theorem split_eq_decomp (txt : List Char) (h : '=' ∈ txt) :
    splitOnP (fun c => c == '=') txt =
      txt.takeWhile (fun c => !(c == '=')) ::
        splitOnP (fun c => c == '=') (afterFirstEq txt) := by
  have hex : ∃ c ∈ txt, (c == '=') = true := ⟨'=', h, by simp⟩
  have hd := splitOnP_decomp (fun c => c == '=') txt hex
  unfold afterFirstEq
  simpa using hd

theorem getD_one_split_eq (txt : List Char) (h : '=' ∈ txt) :
    (splitOnP (fun c => c == '=') txt).getD 1 [] =
      (afterFirstEq txt).takeWhile (fun c => !(c == '=')) := by
  rw [split_eq_decomp txt h]
  cases hs : splitOnP (fun c => c == '=') (afterFirstEq txt) with
  | nil => exact absurd hs (splitOnP_ne_nil _ _)
  | cons part parts =>
    have hh := headD_split_eq (afterFirstEq txt)
    rw [hs] at hh
    simp only [List.headD_cons] at hh
    simp [hs, hh]

theorem join_tail_split_eq (txt : List Char) (h : '=' ∈ txt) :
    joinSep '=' (splitOnP (fun c => c == '=') txt).tail = afterFirstEq txt := by
  rw [split_eq_decomp txt h]
  rw [List.tail_cons]
  exact joinSep_splitOnP '=' (afterFirstEq txt)

/-- C1: the claim states that `insert(p, n, a)` followed by `delete(p, n, a)`
restores the original coordinate-to-value mapping.  On the code both
operations raise `TypeError` at `for key in self:` before touching a single
cell (a `DataArray` has no key iteration; the Python 2 sequence-protocol
fallback calls `self[0]`, which tries to iterate the integer `0`), so the
round trip can never even begin: here both calls on shape `(3, 3, 1)` with one
stored cell, at the valid insertion/deletion point `0`, count `1`, axis `0`,
raise `TypeError`. -/
theorem c1_insert_delete_code_bug :
    DataArray.insert [3, 3, 1] [([0, 0, 0], "v")] 0 1 0 =
        Except.error PyError.typeError ∧
      DataArray.delete [3, 3, 1] [([0, 0, 0], "v")] 0 1 0 =
        Except.error PyError.typeError := by
  exact ⟨by decide, by decide⟩

/-- C2: the claim states that a bounded `get` after `set(coord, v)` returns
`v` and that a never-set in-bounds coordinate reads as `None`.  On the code,
`set((0,0,0), "1")` stores `"1"` under the 1-tuple key `(0,)` (the
`itertools.product` call at model.py:372 is missing its unpacking star), and
the bounded `get` raises `TypeError` for every in-bounds coordinate — set or
not — because `DictGrid.__getitem__` calls `KeyValueStore.__getitem__(key)`
without the receiver. -/
theorem c2_set_get_code_bug :
    DataArray.setitem [] [KeyElem.int 0, KeyElem.int 0, KeyElem.int 0] "1" =
        Except.ok [([0], "1")] ∧
      DataArray.getitem [3, 3, 1] [([0], "1")]
          [KeyElem.int 0, KeyElem.int 0, KeyElem.int 0] =
        GetRes.err PyError.typeError ∧
      DataArray.getitem [3, 3, 1] []
          [KeyElem.int 1, KeyElem.int 1, KeyElem.int 0] =
        GetRes.err PyError.typeError := by
  exact ⟨by decide, by decide, by decide⟩

/-- C4: the claim states that string-like key axes raise the not-implemented
error while integer/slice keys never do, slices yielding the nested read or
broadcast write.  On the code the two type tests are swapped: a key whose
first non-integer axis is a slice raises `NotImplementedError` on both read
and write, while a string axis is sent to `cell_array_generator` and a
generator object is returned without error. -/
theorem c4_string_slice_dispatch_code_bug :
    DataArray.getitem [3, 3, 1] []
        [KeyElem.slice, KeyElem.int 0, KeyElem.int 0] =
        GetRes.err PyError.notImplementedError ∧
      DataArray.getitem [3, 3, 1] []
          [KeyElem.str "A", KeyElem.int 0, KeyElem.int 0] = GetRes.gen ∧
      DataArray.setitem [] [KeyElem.slice, KeyElem.int 0, KeyElem.int 0] "x" =
        Except.error PyError.notImplementedError := by
  exact ⟨by decide, by decide, by decide⟩

/-- C5: the claim states that every public mutator preserves the invariant
that stored coordinates lie within the shape, and that shrinking evicts all
out-of-bounds coordinates before the new shape is committed.  On the code,
`set((5,0,0), "x")` on shape `(3,3,1)` succeeds and stores the key `(5,)`,
whose axis-0 index `5` is at or beyond the bound `3` (`set` performs no bounds
check and the broken `product` call stores 1-tuples); and a shrink with
out-of-bounds cells pops one key and then raises `RuntimeError` from the
mutated dict iterator, so the new shape is never committed and remaining
out-of-bounds cells are not evicted. -/
theorem c5_shape_invariant_code_bug :
    DataArray.setitem [] [KeyElem.int 5, KeyElem.int 0, KeyElem.int 0] "x" =
        Except.ok [([5], "x"), ([0], "x")] ∧
      keyInShape [3, 3, 1] [5] = false ∧
      DataArray.set_shape [3, 3, 1] [2, 3, 1] [([5], "x"), ([4], "y")] =
        (some PyError.runtimeError, [3, 3, 1], [([4], "y")]) := by
  exact ⟨by decide, by decide, by decide⟩

/-- C6: for every coordinate, resolving the attribute overlay returns the
left-to-right fold of the diffs of exactly those entries whose selection
contains the coordinate (first conjunct); appending one more entry folds its
diff on top — overriding earlier values — exactly when its selection contains
the coordinate (second conjunct); an overlay none of whose selections contain
the coordinate resolves to the empty dict (third conjunct); and an attribute
set by a later diff wins the lookup (fourth conjunct). -/
theorem c6_attribute_overlay_resolution {V : Type} (cas : List (AttrEntry V))
    (key : Coord) (sel : Selection) (d : List (String × V)) (k : String) (v : V) :
    (CellAttributes.getitem cas key =
        (cas.filter (fun e => e.1 key)).foldl (fun acc e => dupdate acc e.2) []) ∧
      CellAttributes.getitem (cas ++ [((sel, d) : AttrEntry V)]) key =
        (if sel key then dupdate (CellAttributes.getitem cas key) d
         else CellAttributes.getitem cas key) ∧
      CellAttributes.getitem (cas.filter (fun e => !(e.1 key))) key = [] ∧
      dget (dupdate (CellAttributes.getitem cas key) [(k, v)]) k = some v := by
  refine ⟨attr_foldl_filter key cas [], ?_, ?_, ?_⟩
  · unfold CellAttributes.getitem
    rw [List.foldl_append]
    simp only [List.foldl_cons, List.foldl_nil]
  · have h1 := attr_foldl_filter key (cas.filter (fun e => !(e.1 key))) []
    unfold CellAttributes.getitem
    rw [h1, List.filter_filter]
    have hnil : (cas.filter (fun a => a.1 key && !(a.1 key))) = [] := by
      rw [List.filter_eq_nil_iff]
      intro a _
      cases ha : a.1 key <;> simp [ha]
    rw [hnil]
    rfl
  · exact dget_dset _ k v

/-- C10: the claim states that the formula-level `get` never propagates an
evaluation failure, that an empty stored source yields Empty, and that
evaluator failures become the cell's result.  On the code, for every
evaluator, every store and the in-bounds coordinate `(0,0,0)` of shape
`(3,3,1)` — including the empty grid, where the claim requires Empty — the
call raises `TypeError` out of `get`: the source-text fetch
`self.dict_grid[key]` (model.py:516) goes through the broken
`DictGrid.__getitem__` and is not inside the `try` block. -/
theorem c10_eval_error_capture_code_bug {V E : Type} (ev : List Char → Except E V)
    (store : Store) :
    CodeArray.getitem ev [3, 3, 1] store [0, 0, 0] =
      Except.error PyError.typeError := rfl

theorem setitemCollect_ints : ∀ key : List Int,
    setitemCollect (key.map KeyElem.int) = Except.ok key := by
  intro key
  induction key with
  | nil => rfl
  | cons k ks ih => simp [setitemCollect, ih, Except.map]

/-- C3 counterexample: the claim requires every coordinate with an axis index
failing `0 ≤ c[i] < shape[i]` to raise `OutOfBounds` (`IndexError`) from both
the bounded read and the bounded write.  On shape `(3,3,1)` the read at
`(-1, 0, 0)` — whose first axis fails `0 ≤ c[0]` — does not raise
`IndexError` (the bounds check at model.py:121 accepts any index down to
`-shape[axis]`), and the write at `(5, 5, 5)` raises nothing at all (the
write path has no bounds check). -/
theorem c3_bounds_counterexample :
    DictGrid.getitem [3, 3, 1] [] [-1, 0, 0] ≠ Except.error PyError.indexError ∧
      DataArray.setitem [] [KeyElem.int 5, KeyElem.int 5, KeyElem.int 5] "x" ≠
        Except.error PyError.indexError := by
  exact ⟨by decide, by decide⟩

/-- C3 amended: the bounded read raises `OutOfBounds` (`IndexError`) exactly
when some axis `i` of the coordinate fails the Python-style bound
`-shape[i] ≤ c[i] < shape[i]` or has no corresponding shape axis; the bounded
write performs no bounds check and always succeeds on integer coordinates. -/
theorem c3_bounds_amended (shape : List Int) (store : Store) (key : List Int)
    (value : String) :
    (DictGrid.getitem shape store key = Except.error PyError.indexError ↔
        PyOOB shape key) ∧
      ∃ store2,
        DataArray.setitem store (key.map KeyElem.int) value = Except.ok store2 := by
  constructor
  · unfold DictGrid.getitem
    by_cases hb : boundsErr shape key = true
    · rw [if_pos hb]
      constructor
      · intro _
        exact (boundsErr_iff key shape).mp hb
      · intro _
        rfl
    · rw [if_neg hb]
      constructor
      · intro h
        exact PyError.noConfusion (Except.error.inj h)
      · intro hoob
        exact absurd ((boundsErr_iff key shape).mpr hoob) hb
  · unfold DataArray.setitem
    rw [setitemCollect_ints key]
    exact ⟨_, rfl⟩

/-- C3 amended, witnessed at shape `(3,3,1)`: the read at `(5,0,0)` raises
`IndexError`, and the write of `"v"` at the 1-axis coordinate `(1,)` on the
empty store succeeds. -/
theorem c3_bounds_amended_witness :
    DictGrid.getitem [3, 3, 1] [] [5, 0, 0] = Except.error PyError.indexError ∧
      ∃ store2, DataArray.setitem [] [KeyElem.int 1] "v" = Except.ok store2 := by
  constructor
  · exact (c3_bounds_amended [3, 3, 1] [] [5, 0, 0] "v").1.mpr
      ⟨0, by decide, Or.inr (Or.inl (by decide))⟩
  · exact (c3_bounds_amended [3, 3, 1] [] [1] "v").2

/-- C7: starting from an idle log (`active` clear, undo stack empty or topped
by a mark, neither stack over the size limit), appending one entry, marking,
and undoing (1) emits exactly the events "entry moved to the redo stack" then
"undo action invoked with the undo arguments" — the stack move precedes the
invocation and the action runs exactly once — and (2) leaves the entry on top
of the redo stack; a subsequent redo (3) emits exactly "entry moved to the
undo stack" then "redo action invoked with the redo arguments" and (4) returns
the entry to the top of the undo stack. -/
theorem c7_undo_redo_single_entry {α β : Type} (m : Nat) (s : UnRedo α β)
    (e : UrEntry α β)
    (hact : s.active = false)
    (hidle : s.undolist = [] ∨ s.undolist.head? = some UrItem.mark)
    (hlu : s.undolist.length ≤ m) (hlr : s.redolist.length ≤ m) :
    ((UnRedo.append m s (e.ufn, e.uargs) (e.rfn, e.rargs)).mark.undo.2 =
        [UrEvent.movedToRedo e, UrEvent.invokedUndo e.ufn e.uargs]) ∧
      ((UnRedo.append m s (e.ufn, e.uargs) (e.rfn, e.rargs)).mark.undo.1.redolist.head? =
        some (UrItem.step e)) ∧
      ((UnRedo.append m s (e.ufn, e.uargs) (e.rfn, e.rargs)).mark.undo.1.redo.2 =
        [UrEvent.movedToUndo e, UrEvent.invokedRedo e.rfn e.rargs]) ∧
      ((UnRedo.append m s (e.ufn, e.uargs) (e.rfn, e.rargs)).mark.undo.1.redo.1.undolist.head? =
        some (UrItem.step e)) := by
  obtain ⟨ul, rl, act⟩ := s
  have hact2 : act = false := hact
  subst hact2
  have hlu2 : ul.length ≤ m := hlu
  have hlr2 : rl.length ≤ m := hlr
  have h1 : decide (ul.length > m) = false := decide_eq_false (by omega)
  have h2 : decide (rl.length > m) = false := decide_eq_false (by omega)
  have happ : UnRedo.append m ⟨ul, rl, false⟩ (e.ufn, e.uargs) (e.rfn, e.rargs) =
      ⟨UrItem.step e :: ul, rl, false⟩ := by
    unfold UnRedo.append UnRedo.reset
    simp [h1, h2]
  rw [happ]
  have hmark : (⟨UrItem.step e :: ul, rl, false⟩ : UnRedo α β).mark =
      ⟨UrItem.mark :: UrItem.step e :: ul, rl, false⟩ := rfl
  rw [hmark]
  rcases hidle with hul | hh
  · have : ul = [] := hul
    subst this
    rcases rl with _ | ⟨r0, rl2⟩
    · refine ⟨?_, ?_, ?_, ?_⟩ <;>
        simp [UnRedo.undo, UnRedo.redo, undoPopLoop, redoPopLoop, UrItem.isMark]
    · cases r0 with
      | mark =>
        refine ⟨?_, ?_, ?_, ?_⟩ <;>
          simp [UnRedo.undo, UnRedo.redo, undoPopLoop, redoPopLoop, UrItem.isMark]
      | step e2 =>
        refine ⟨?_, ?_, ?_, ?_⟩ <;>
          simp [UnRedo.undo, UnRedo.redo, undoPopLoop, redoPopLoop, UrItem.isMark]
  · rcases ul with _ | ⟨u0, ul2⟩
    · simp at hh
    · have : u0 = UrItem.mark := by simpa using hh
      subst this
      rcases ul2 with _ | ⟨u1, ul3⟩ <;> rcases rl with _ | ⟨r0, rl2⟩
      · refine ⟨?_, ?_, ?_, ?_⟩ <;>
          simp [UnRedo.undo, UnRedo.redo, undoPopLoop, redoPopLoop, UrItem.isMark]
      · cases r0 with
        | mark =>
          refine ⟨?_, ?_, ?_, ?_⟩ <;>
            simp [UnRedo.undo, UnRedo.redo, undoPopLoop, redoPopLoop, UrItem.isMark]
        | step e2 =>
          refine ⟨?_, ?_, ?_, ?_⟩ <;>
            simp [UnRedo.undo, UnRedo.redo, undoPopLoop, redoPopLoop, UrItem.isMark]
      · refine ⟨?_, ?_, ?_, ?_⟩ <;>
          simp [UnRedo.undo, UnRedo.redo, undoPopLoop, redoPopLoop, UrItem.isMark]
      · cases r0 with
        | mark =>
          refine ⟨?_, ?_, ?_, ?_⟩ <;>
            simp [UnRedo.undo, UnRedo.redo, undoPopLoop, redoPopLoop, UrItem.isMark]
        | step e2 =>
          refine ⟨?_, ?_, ?_, ?_⟩ <;>
            simp [UnRedo.undo, UnRedo.redo, undoPopLoop, redoPopLoop, UrItem.isMark]

/-- C7, witnessed on the fresh log with threshold `0` and the entry
`(undo action 0, args [1], redo action 2, args [3])`. -/
theorem c7_undo_redo_single_entry_witness :
    ((UnRedo.append 0 (⟨[], [], false⟩ : UnRedo Nat (List Nat)) (0, [1]) (2, [3])).mark.undo.2 =
        [UrEvent.movedToRedo ⟨0, [1], 2, [3]⟩, UrEvent.invokedUndo 0 [1]]) ∧
      ((UnRedo.append 0 (⟨[], [], false⟩ : UnRedo Nat (List Nat)) (0, [1]) (2, [3])).mark.undo.1.redolist.head? =
        some (UrItem.step ⟨0, [1], 2, [3]⟩)) ∧
      ((UnRedo.append 0 (⟨[], [], false⟩ : UnRedo Nat (List Nat)) (0, [1]) (2, [3])).mark.undo.1.redo.2 =
        [UrEvent.movedToUndo ⟨0, [1], 2, [3]⟩, UrEvent.invokedRedo 2 [3]]) ∧
      ((UnRedo.append 0 (⟨[], [], false⟩ : UnRedo Nat (List Nat)) (0, [1]) (2, [3])).mark.undo.1.redo.1.undolist.head? =
        some (UrItem.step ⟨0, [1], 2, [3]⟩)) :=
  c7_undo_redo_single_entry 0 ⟨[], [], false⟩ ⟨0, [1], 2, [3]⟩ rfl (Or.inl rfl)
    (by decide) (by decide)

/-- C8 counterexample: the claim states that while `active` is true, `append`
leaves both stacks unchanged for every state of the log.  In the reachable
state with two entries on the undo list, threshold `MAX_UNREDO = 1` and
`active = true` — an append issued by an undo action during a replay —
`append` first runs `reset()` (the size check precedes the `active` check and
`reset` also clears `active`), and then pushes the new entry: the undo stack
changes. -/
theorem c8_append_while_active_counterexample :
    (⟨[UrItem.step ⟨0, 0, 0, 0⟩, UrItem.step ⟨0, 0, 0, 0⟩], [], true⟩ :
        UnRedo Nat Nat).active = true ∧
      ¬ ((UnRedo.append 1
            (⟨[UrItem.step ⟨0, 0, 0, 0⟩, UrItem.step ⟨0, 0, 0, 0⟩], [], true⟩ :
              UnRedo Nat Nat) (5, 6) (7, 8)).undolist =
            [UrItem.step ⟨0, 0, 0, 0⟩, UrItem.step ⟨0, 0, 0, 0⟩] ∧
          (UnRedo.append 1
            (⟨[UrItem.step ⟨0, 0, 0, 0⟩, UrItem.step ⟨0, 0, 0, 0⟩], [], true⟩ :
              UnRedo Nat Nat) (5, 6) (7, 8)).redolist = []) := by
  exact ⟨rfl, by decide⟩

/-- C8 amended: while `active` is true, `append` leaves the log unchanged
provided neither stack is longer than `MAX_UNREDO`; when either stack exceeds
the threshold, `append` instead clears both stacks and the `active` flag and
pushes the new entry (the size check runs before the `active` check, and
`reset` re-runs `__init__`). -/
theorem c8_append_while_active_amended {α β : Type} (m : Nat) (s : UnRedo α β)
    (uop rop : α × β) (hact : s.active = true) :
    (s.undolist.length ≤ m → s.redolist.length ≤ m →
        UnRedo.append m s uop rop = s) ∧
      (s.undolist.length > m ∨ s.redolist.length > m →
        UnRedo.append m s uop rop =
          ⟨[UrItem.step ⟨uop.1, uop.2, rop.1, rop.2⟩], [], false⟩) := by
  constructor
  · intro hu hr
    have d1 : decide (s.undolist.length > m) = false := decide_eq_false (by omega)
    have d2 : decide (s.redolist.length > m) = false := decide_eq_false (by omega)
    unfold UnRedo.append
    simp [d1, d2, hact]
  · intro h
    have hd : (decide (s.undolist.length > m) || decide (s.redolist.length > m)) = true := by
      rcases h with h | h
      · simp [h]
      · simp [h]
    unfold UnRedo.append UnRedo.reset
    simp [hd]

/-- C8 amended, witnessed in the active state with empty stacks and threshold
`5`: the append is ignored and the state is unchanged. -/
theorem c8_append_while_active_amended_witness :
    UnRedo.append 5 (⟨[], [], true⟩ : UnRedo Nat Nat) (1, 2) (3, 4) =
      ⟨[], [], true⟩ :=
  (c8_append_while_active_amended 5 ⟨[], [], true⟩ (1, 2) (3, 4) rfl).1
    (by decide) (by decide)

theorem isEmpty_false_iff (l : List Char) : l.isEmpty = false ↔ l ≠ [] := by
  cases l <;> simp

/-- C9 counterexample: the claim requires detection exactly when, among the
other conditions, the right part obtained by rejoining all remaining parts
with `=` is non-empty.  For the stored text `"x==1"` all of the claim's
conditions hold (the rejoined right part is `"=1"`), yet the code does not
detect an assignment: it tests `split_exp[1] != ""`, and the part between the
two `=` signs is empty. -/
theorem c9_assignment_detection_counterexample :
    CodeArray.has_assignment "x==1".data = false ∧ SpecC9detect "x==1".data := by
  constructor
  · decide
  · unfold SpecC9detect
    exact ⟨by decide, by decide, by decide,
      (operators_sub_iff _).mp (by decide), by decide⟩

/-- C9 amended: detection holds iff splitting on `=` yields at least two
parts (equivalently, the text contains `=`), the left part is exactly one
whitespace-delimited token, the part strictly between the first `=` and the
following `=` or the end of the text — Python's `split_exp[1]`, not the whole
rejoined remainder — is non-empty, the left part contains none of the fixed
operator set, and the left part has balanced parenthesis counts.  When
detected, the global-variable name is the stripped left part — which equals
the left part's single whitespace token — and the expression evaluated is
everything after the first `=`; otherwise there is no global variable and the
expression is the entire source text. -/
theorem c9_assignment_detection_amended (txt : List Char) :
    (CodeArray.has_assignment txt = true ↔ AmendedC9detect txt) ∧
      (CodeArray.has_assignment txt = true →
        CodeArray.eval_cell_split txt =
          (some (pyStrip (txt.takeWhile (fun c => !(c == '=')))), afterFirstEq txt) ∧
        pyWsSplit (txt.takeWhile (fun c => !(c == '='))) =
          [pyStrip (txt.takeWhile (fun c => !(c == '=')))]) ∧
      (CodeArray.has_assignment txt = false →
        CodeArray.eval_cell_split txt = (none, txt)) := by
  have hb : CodeArray.has_assignment txt = true ↔ AmendedC9detect txt := by
    unfold CodeArray.has_assignment AmendedC9detect
    simp only [Bool.and_eq_true, decide_eq_true_eq, Bool.not_eq_true',
      beq_iff_eq, headD_split_eq, one_lt_split_eq_iff, isEmpty_false_iff]
    constructor
    · rintro ⟨⟨⟨⟨hmem, htok⟩, hgetd⟩, hops⟩, hcnt⟩
      refine ⟨hmem, htok, ?_, (operators_sub_iff _).mp hops, hcnt⟩
      rw [← getD_one_split_eq txt hmem]
      exact hgetd
    · rintro ⟨hmem, htok, hsecond, hops, hcnt⟩
      refine ⟨⟨⟨⟨hmem, htok⟩, ?_⟩, (operators_sub_iff _).mpr hops⟩, hcnt⟩
      rw [getD_one_split_eq txt hmem]
      exact hsecond
  refine ⟨hb, ?_, ?_⟩
  · intro h
    have hmem : '=' ∈ txt := (hb.mp h).1
    constructor
    · unfold CodeArray.eval_cell_split
      rw [if_pos h]
      rw [headD_split_eq, join_tail_split_eq txt hmem]
    · have htok := (hb.mp h).2.1
      obtain ⟨t, ht⟩ := List.length_eq_one.mp htok
      rw [ht, pyWsSplit_single _ t ht]
  · intro h
    unfold CodeArray.eval_cell_split
    rw [if_neg (by simp [h])]

/-- C9 amended, witnessed on the stored text `"a = 3+4"`: detection holds,
the global variable is the stripped left part and the expression is
everything after the first `=`. -/
theorem c9_assignment_detection_amended_witness :
    CodeArray.has_assignment "a = 3+4".data = true ∧
      CodeArray.eval_cell_split "a = 3+4".data =
        (some (pyStrip (("a = 3+4".data).takeWhile (fun c => !(c == '=')))),
          afterFirstEq "a = 3+4".data) :=
  ⟨by decide, ((c9_assignment_detection_amended "a = 3+4".data).2.1 (by decide)).1⟩
